import Mathlib

/-!
Verification of the git-ci pipeline execution engine.

This file gives a shallow embedding, in Lean 4, of the parts of the
git-ci code base that the checked claims are about:

* the normalized pipeline model (`pkg/types/types.go`),
* the native process backend `BashRunner` (`internal/runners`):
  `RunJob`, `RunStep`, `shouldRunStep`, `executeWithRetry`,
  `buildStepEnvironment`, `mergeEnvironments`,
* the containerized backend `DockerRunner`: `buildJobScript`, `Cleanup`,
* the scheduler `runJobsSequential` / `runJobsParallel`
  (`internal/handlers/clean.go`),
* the validator `validatePipeline` / `checkCircularDependencies`.

Effectful pieces (subprocess execution, wall-clock timing, container
removal) are parametrized by outcome oracles, so each embedded function
is a pure, executable Lean function whose control flow mirrors the Go
source line by line.  Go maps are modelled as association lists
(`List (String × String)`) with `List.lookup`; since Go maps have unique
keys, `List.lookup` (first match) agrees with Go map lookup, and the
"later entry wins" semantics of a `KEY=VALUE` environment slice handed
to a subprocess is modelled by layered `Option.orElse` lookups.
-/

namespace GitCI

/-- Model of Go `time.Duration` sleeps and parsed delays: abstract
nanosecond counts. -/
abbrev Duration := Nat

/-- A single-quote character, as a string (used in generated shell text
and in error messages that quote names). -/
def sq : String := "\x27"

/-- Embeds `types.RetryPolicy` (pkg/types): only the fields the runner reads. -/
structure RetryPolicy where
  MaxAttempts : Int
  Delay : String
  Backoff : String := ""
  deriving Repr, DecidableEq

/-- Embeds `types.Step` (pkg/types): the fields consumed by the two backends and
the validator. -/
structure Step where
  Name : String := ""
  Run : String := ""
  Uses : String := ""
  Env : List (String × String) := []
  If : String := ""
  ContinueOnErr : Bool := false
  Shell : String := ""
  WorkingDir : String := ""
  TimeoutMin : Int := 0
  RetryPolicy : Option RetryPolicy := none
  deriving Repr, DecidableEq

/-- Embeds `types.Job` (pkg/types): the fields consumed by the backends, the
scheduler and the validator.  Pointer-valued optional blocks
(`Trigger`, `Artifacts`, `Cache`, `Container`) are modelled as `Option`;
for `Artifacts`/`Cache` only the `Paths` list is relevant to validation,
for `Container` only `Image`, `Env`, `Volumes`. -/
structure ContainerSpec where
  Image : String := ""
  Env : List (String × String) := []
  Volumes : List String := []
  deriving Repr, DecidableEq

structure Job where
  Name : String := ""
  RunsOn : String := ""
  Steps : List Step := []
  Environment : List (String × String) := []
  Needs : List String := []
  Stage : String := ""
  Tags : List String := []
  Image : String := ""
  Container : Option ContainerSpec := none
  Trigger : Option Unit := none
  Artifacts : Option (List String) := none
  Cache : Option (List String) := none
  AllowFailure : Bool := false
  TimeoutMin : Int := 0
  deriving Repr, DecidableEq

/-- Embeds `types.Pipeline` (pkg/types).  The Go `Jobs` field is a
`map[string]*Job`; it is modelled as an association list with unique
keys, looked up with `List.lookup`. -/
structure Pipeline where
  Name : String := ""
  Jobs : List (String × Job) := []
  Environment : List (String × String) := []
  Stages : List String := []
  deriving Repr, DecidableEq

/-- Embeds `config.RunnerConfig` (internal/config): the fields the runners read. -/
structure RunnerConfig where
  DryRun : Bool := false
  Verbose : Bool := false
  PullImages : Bool := true
  Timeout : Int := 0
  Environment : List (String × String) := []
  deriving Repr, DecidableEq

/-- Embeds `runners.JobSummary` (internal/runners/common.go), without the
wall-clock `Duration` field. -/
structure JobSummary where
  JobName : String := ""
  TotalSteps : Nat := 0
  CompletedSteps : Nat := 0
  FailedSteps : Nat := 0
  SkippedSteps : Nat := 0
  Success : Bool := true
  Errors : List String := []
  deriving Repr, DecidableEq

/-- Embeds `BashRunner.shouldRunStep` (internal/runners): the `if` guard
evaluator.  Empty guard runs; then a four-token table; anything else
defaults to running. -/
def shouldRunStep (step : Step) : Bool :=
  if step.If = "" then
    true
  else
    let condition := step.If
    if condition = "always()" then true
    else if condition = "success()" then true
    else if condition = "failure()" then false
    else if condition = "cancelled()" then false
    else true

/-- Lookup in a modelled Go map (unique keys, first match). -/
def lookupEnv (env : List (String × String)) (k : String) : Option String :=
  env.lookup k

/-- Embeds `BashRunner.mergeEnvironments` (internal/runners): builds one map by
writing each input map in order, later maps overwriting earlier keys.
The resulting map is modelled extensionally, as its lookup function. -/
def mergeEnvironments (envs : List (List (String × String))) :
    String → Option String :=
  fun k => envs.foldl (fun acc env => (lookupEnv env k).orElse (fun _ => acc)) none

/-- Embeds `BashRunner.setupJobEnvironment` (internal/runners): the marker variables the runner
injects.  `gitBranch`/`gitCommit` stand for the results
of the two `git rev-parse` probes (empty string when not in a repo, in
which case the key is not written). -/
def runnerEnvironment (job : Job) (workdir : String)
    (gitBranch gitCommit : String) : List (String × String) :=
  [("CI", "true"), ("GIT_CI", "true"), ("BASH_RUNNER", "true"),
   ("JOB_NAME", job.Name), ("WORKSPACE", workdir)]
    ++ (if gitBranch ≠ "" then [("GIT_BRANCH", gitBranch)] else [])
    ++ (if gitCommit ≠ "" then [("GIT_COMMIT", gitCommit)] else [])

/-- Embeds `BashRunner.buildStepEnvironment` (internal/runners): appends, to the
base OS environment slice, the runner markers, then the job map, then the
step map, as `KEY=VALUE` entries.  A subprocess resolves duplicates in
that slice by taking the last occurrence, so the effective environment is
the layered lookup: step over job over runner markers over OS. -/
def buildStepEnvironment (osEnv : String → Option String)
    (runnerEnv : List (String × String))
    (jobEnv : String → Option String)
    (stepEnv : List (String × String)) : String → Option String :=
  fun k =>
    (lookupEnv stepEnv k).orElse fun _ =>
      (jobEnv k).orElse fun _ =>
        (lookupEnv runnerEnv k).orElse fun _ => osEnv k

/-- The effective environment the subprocess of a step sees in
`BashRunner.RunJob`: the runner computes
`jobEnv := mergeEnvironments(job.Environment, config.Environment)` and
hands `buildStepEnvironment(jobEnv, step.Env)` to the process. -/
def effectiveStepEnv (cfg : RunnerConfig) (job : Job) (step : Step)
    (workdir : String) (osEnv : String → Option String)
    (gitBranch gitCommit : String) : String → Option String :=
  let jobEnv := mergeEnvironments [job.Environment, cfg.Environment]
  buildStepEnvironment osEnv
    (runnerEnvironment job workdir gitBranch gitCommit) jobEnv step.Env

/-- Modelled from the spec sentence only, for comparison with the code:
"base process/runtime environment < backend-injected markers < pipeline
environment < job environment < step environment, each layer overriding
same-named keys from the previous layer." -/
def specLayeredEnv (osEnv : String → Option String)
    (markers : List (String × String))
    (pipelineEnv jobEnv stepEnv : List (String × String)) :
    String → Option String :=
  fun k =>
    (lookupEnv stepEnv k).orElse fun _ =>
      (lookupEnv jobEnv k).orElse fun _ =>
        (lookupEnv pipelineEnv k).orElse fun _ =>
          (lookupEnv markers k).orElse fun _ => osEnv k

/-- One iteration state of the step loop in `BashRunner.RunJob`. -/
structure RunJobState where
  summary : JobSummary
  deriving Repr, DecidableEq

/-- The step loop of `BashRunner.RunJob` (internal/runners, lines 80-124).

`stepResult i` is the outcome `RunStep` would report for the step at
index `i` (`none` = success), and `elapsedExceeded i` tells whether the
wall-clock job timeout check (`time.Since(startTime).Minutes() >
float64(r.config.Timeout)`) fires before step `i`; both stand for the
effectful parts.  Mirrors the source: timeout break, guard skip,
failed-step accounting with `ContinueOnErr`, early break otherwise. -/
def runJobStepsLoop (cfg : RunnerConfig) (stepResult : Nat → Option String)
    (elapsedExceeded : Nat → Bool) (i : Nat) (remaining : List Step)
    (summary : JobSummary) : JobSummary :=
  match remaining with
  | [] => summary
  | step :: rest =>
    if cfg.Timeout > 0 ∧ elapsedExceeded i then
      { summary with
        Success := false
        Errors := summary.Errors ++
          ["Job timeout exceeded (" ++ toString cfg.Timeout ++ " minutes)"] }
    else if ¬ shouldRunStep step then
      runJobStepsLoop cfg stepResult elapsedExceeded (i + 1) rest
        { summary with SkippedSteps := summary.SkippedSteps + 1 }
    else
      match stepResult i with
      | some e =>
        let summary := { summary with FailedSteps := summary.FailedSteps + 1 }
        if step.ContinueOnErr then
          runJobStepsLoop cfg stepResult elapsedExceeded (i + 1) rest summary
        else
          { summary with
            Success := false
            Errors := summary.Errors ++
              ["Step " ++ sq ++ step.Name ++ sq ++ " failed: " ++ e] }
      | none =>
        runJobStepsLoop cfg stepResult elapsedExceeded (i + 1) rest
          { summary with CompletedSteps := summary.CompletedSteps + 1 }

def runJobSteps (cfg : RunnerConfig) (jobName : String) (steps : List Step)
    (stepResult : Nat → Option String) (elapsedExceeded : Nat → Bool) :
    JobSummary :=
  runJobStepsLoop cfg stepResult elapsedExceeded 0 steps
    { JobName := jobName, TotalSteps := steps.length, Success := true }

/-- Embeds `BashRunner.RunJob` (internal/runners, lines 41-135).  `workdirErr`
stands for the two early workdir checks (`filepath.Abs` failure or a
missing directory); when they pass, the runner executes the step loop and
then returns `nil` unconditionally (line 134), so the scheduler-visible
result is `Except.ok summary` regardless of `summary.Success`. -/
def bashRunJob (cfg : RunnerConfig) (job : Job)
    (stepResult : Nat → Option String) (elapsedExceeded : Nat → Bool)
    (workdirErr : Option String) : Except String JobSummary :=
  match workdirErr with
  | some e => .error e
  | none =>
    .ok (runJobSteps cfg job.Name job.Steps stepResult elapsedExceeded)

/-- Model of a Go `exec.Cmd` as prepared by the bash runner: the resolved
program path, the argument vector after the program name (`Args[1:]`),
the working directory and the environment slice (modelled by its
effective lookup function). -/
structure GoCmd where
  path : String
  argsTail : List String
  dir : String := ""
  env : String → Option String := fun _ => none

/-- Embeds `BashRunner.prepareCommand` (internal/runners): shell name to argv. -/
def prepareCommand (shell script : String) : GoCmd :=
  if shell = "bash" then
    { path := "bash", argsTail := ["-eo", "pipefail", "-c", script] }
  else if shell = "sh" then
    { path := "sh", argsTail := ["-e", "-c", script] }
  else if shell = "pwsh" ∨ shell = "powershell" then
    { path := "pwsh", argsTail := ["-Command", script] }
  else if shell = "python" ∨ shell = "python3" then
    { path := "python3", argsTail := ["-c", script] }
  else if shell = "node" then
    { path := "node", argsTail := ["-e", script] }
  else
    { path := shell, argsTail := ["-c", script] }

/-- Embeds `BashRunner.getShell` (internal/runners).  `defaultShell` stands for
the `exec.LookPath` probe in `getDefaultShell` over `["bash", "sh"]`. -/
def getShell (specified defaultShell : String) : String :=
  if specified ≠ "" then specified else defaultShell

/-- Embeds `BashRunner.runActionStep` (internal/runners): the fixed table of
well-known `uses:` actions.  `gitRepoOk` stands for the
`git rev-parse --git-dir` probe, `fetchErr` for the outcome of
`git fetch --all --tags`.  The setup actions and the unsupported-action
fallback always return `nil`. -/
def runActionStep (cfg : RunnerConfig) (step : Step) (gitRepoOk : Bool)
    (fetchErr : Option String) : Option String :=
  let parts := step.Uses.splitOn "@"
  let action := parts.headD ""
  if action = "actions/checkout" then
    if cfg.DryRun then none
    else if gitRepoOk then
      match fetchErr with
      | some e => some ("git fetch failed: " ++ e)
      | none => none
    else none
  else if action = "actions/setup-go" ∨ action = "actions/setup-node" ∨
      action = "actions/setup-python" then
    none
  else none

/-- Trace of `BashRunner.executeWithRetry`: the fresh subprocess spawned
for each attempt, the sleeps performed (attempt number it preceded and
the parsed duration) and the final result. -/
structure RetryTrace where
  tries : List GoCmd
  sleeps : List (Nat × Duration)
  result : Option String

/-- The attempt loop of `BashRunner.executeWithRetry` (internal/runners,
lines 348-371).  `attemptResult n` is the outcome of `executeCommand` on
try `n` (1-based); `delayDur` is `time.ParseDuration(policy.Delay)` when
`policy.Delay` is non-empty and parseable, else `none`.  On every
iteration a fresh command is built from the path of the original, `Args[1:]`,
dir and env, and before every attempt past the first the parsed delay is
slept. -/
def retryLoop (cmd : GoCmd) (delayDur : Option Duration)
    (attemptResult : Nat → Option String) (maxAttempts : Nat)
    (attempt : Nat) (remaining : Nat) (tries : List GoCmd)
    (sleeps : List (Nat × Duration)) (lastErr : Option String) : RetryTrace :=
  match remaining with
  | 0 =>
    { tries := tries, sleeps := sleeps,
      result := some ("all " ++ toString maxAttempts ++
        " attempts failed, last error: " ++ lastErr.getD "") }
  | r + 1 =>
    let sleeps :=
      match delayDur with
      | some d => if attempt > 1 then sleeps ++ [(attempt, d)] else sleeps
      | none => sleeps
    let retryCmd : GoCmd :=
      { path := cmd.path, argsTail := cmd.argsTail, dir := cmd.dir,
        env := cmd.env }
    let tries := tries ++ [retryCmd]
    match attemptResult attempt with
    | some e =>
      retryLoop cmd delayDur attemptResult maxAttempts (attempt + 1) r
        tries sleeps (some e)
    | none => { tries := tries, sleeps := sleeps, result := none }

/-- Embeds `BashRunner.executeWithRetry` (internal/runners, lines 340-374):
clamps `MaxAttempts` to at least 1 and runs the attempt loop.
`parseDuration` stands for the Go function `time.ParseDuration`. -/
def executeWithRetry (parseDuration : String → Option Duration)
    (attemptResult : Nat → Option String) (cmd : GoCmd)
    (policy : RetryPolicy) : RetryTrace :=
  let maxAttempts : Int := if policy.MaxAttempts ≤ 0 then 1 else policy.MaxAttempts
  let delayDur : Option Duration :=
    if policy.Delay ≠ "" then parseDuration policy.Delay else none
  retryLoop cmd delayDur attemptResult maxAttempts.toNat 1 maxAttempts.toNat
    [] [] none

/-- Result of the modelled `BashRunner.RunStep`: the reported outcome and
the subprocesses it spawned for the step body. -/
structure StepExec where
  result : Option String
  spawned : List GoCmd

/-- Embeds `BashRunner.RunStep` (internal/runners, lines 137-191).  Action steps
are delegated to `runActionStep` (whose own subprocess probes are outside
this trace); empty `run:` steps and dry-run mode return `nil` without
spawning anything; otherwise the shell command is prepared, rebuilt under
a context when a step timeout is declared (resetting the dir to the plain
workdir, as the source does), and run once or through the retry loop. -/
def runStep (cfg : RunnerConfig) (step : Step)
    (osEnv : String → Option String) (runnerEnv : List (String × String))
    (env : String → Option String)
    (workdir defaultShell : String)
    (parseDuration : String → Option Duration)
    (attemptResult : Nat → Option String)
    (gitRepoOk : Bool) (fetchErr : Option String) : StepExec :=
  if step.Uses ≠ "" then
    { result := runActionStep cfg step gitRepoOk fetchErr, spawned := [] }
  else if step.Run = "" then
    { result := none, spawned := [] }
  else if cfg.DryRun then
    { result := none, spawned := [] }
  else
    let shell := getShell step.Shell defaultShell
    let cmd0 := prepareCommand shell step.Run
    let dir :=
      if step.WorkingDir ≠ "" then workdir ++ "/" ++ step.WorkingDir
      else workdir
    let stepCmdEnv := buildStepEnvironment osEnv runnerEnv env step.Env
    let cmd1 : GoCmd := { cmd0 with dir := dir, env := stepCmdEnv }
    let cmd :=
      if step.TimeoutMin > 0 then { cmd1 with dir := workdir } else cmd1
    match step.RetryPolicy with
    | some policy =>
      if policy.MaxAttempts > 1 then
        let t := executeWithRetry parseDuration attemptResult cmd policy
        { result := t.result, spawned := t.tries }
      else
        { result := attemptResult 1, spawned := [cmd] }
    | none => { result := attemptResult 1, spawned := [cmd] }

/-- The per-step block of `DockerRunner.buildJobScript`
(internal/runners, lines 374-417) for one step, given the step number
already assigned to it.  Returns the emitted lines.  Note the source
appends `|| true` as a line of its own after the command line. -/
def dockerStepLines (totalSteps stepNum : Nat) (step : Step) : List String :=
  ["echo " ++ sq ++ sq,
   "echo " ++ sq ++ "[" ++ toString stepNum ++ "/" ++ toString totalSteps ++
     "] " ++ step.Name ++ sq,
   "echo " ++ sq ++ String.replicate 60 (Char.ofNat 45) ++ sq]
  ++ (if step.WorkingDir ≠ "" then ["cd " ++ step.WorkingDir] else [])
  ++ step.Env.map (fun kv => "export " ++ kv.1 ++ "=" ++ sq ++ kv.2 ++ sq)
  ++ [step.Run]
  ++ (if step.ContinueOnErr then ["|| true"] else [])
  ++ ["echo " ++ sq ++ "Step completed" ++ sq]
  ++ (if step.WorkingDir ≠ "" then ["cd /workspace"] else [])

/-- The per-step block emitted for an action (`uses:`) step, which the
Docker runner only announces and skips. -/
def dockerActionLines (totalSteps stepNum : Nat) (step : Step) : List String :=
  ["echo " ++ sq ++ sq,
   "echo " ++ sq ++ "[" ++ toString stepNum ++ "/" ++ toString totalSteps ++
     "] " ++ step.Name ++ sq,
   "echo " ++ sq ++ String.replicate 60 (Char.ofNat 45) ++ sq,
   "echo " ++ sq ++ "Skipping action: " ++ step.Name ++
     " (not supported in Docker runner)" ++ sq]

/-- The step loop of `DockerRunner.buildJobScript`: steps with neither a
command nor an action emit nothing and do not advance the step counter. -/
def dockerScriptSteps (totalSteps : Nat) (stepNum : Nat) :
    List Step → List String
  | [] => []
  | step :: rest =>
    if step.Uses ≠ "" then
      dockerActionLines totalSteps (stepNum + 1) step
        ++ dockerScriptSteps totalSteps (stepNum + 1) rest
    else if step.Run = "" then
      dockerScriptSteps totalSteps stepNum rest
    else
      dockerStepLines totalSteps (stepNum + 1) step
        ++ dockerScriptSteps totalSteps (stepNum + 1) rest

/-- Embeds `DockerRunner.buildJobScript` (internal/runners, lines 356-424), as
the list of lines that `strings.Join(commands, "\n")` concatenates. -/
def buildJobScript (cfg : RunnerConfig) (job : Job) : List String :=
  ["#!/bin/sh", "set -e"]
  ++ (if cfg.Verbose then ["set -x"] else [])
  ++ ["", "echo " ++ sq ++ "Setting up environment..." ++ sq, ""]
  ++ dockerScriptSteps job.Steps.length 0 job.Steps
  ++ ["", "echo " ++ sq ++ sq,
      "echo " ++ sq ++ "All steps completed successfully!" ++ sq]

/-- Minimal model of `/bin/sh` running a generated job script under the
`set -e` option emitted at its top.  The generated script is a sequence
of lines, each a complete simple command; `fails l` says whether command
line `l` exits non-zero.  Under `set -e` the first failing line aborts
the script with a non-zero exit, and a line beginning with the `||`
operator (as the orphan continuation lines emitted for continue-on-error
steps are) is a shell parse error, which likewise aborts with a non-zero
exit.  Returns the executed lines and whether the script exited zero. -/
def runScriptSetE (fails : String → Bool) : List String → List String × Bool
  | [] => ([], true)
  | l :: ls =>
    if l.toList.take 2 = [Char.ofNat 124, Char.ofNat 124] then ([], false)
    else if fails l then ([l], false)
    else
      let rest := runScriptSetE fails ls
      (l :: rest.1, rest.2)

/-- Decides whether `l` ends with `suffix`, decided on the character lists. -/
def strHasSuffix (l suffix : String) : Bool :=
  suffix.toList.isSuffixOf l.toList

/-- Trace of one `DockerRunner.Cleanup` call: the container IDs it tried
to remove, the tracked list it leaves behind, and its return value. -/
structure CleanupTrace where
  attempted : List String
  remaining : List String
  result : Option String
  deriving Repr, DecidableEq

/-- Embeds `DockerRunner.Cleanup` (internal/runners, lines 540-583).
`removeFails id` stands for the outcome of `ContainerRemove` on `id`.
An empty tracked list returns `nil` at once; otherwise every tracked
container is removed, removal errors are collected (not returned one by
one), the tracked list is cleared unconditionally, and a non-nil error is
returned only as a count of the collected failures. -/
def dockerCleanup (containers : List String) (removeFails : String → Bool) :
    CleanupTrace :=
  if containers.isEmpty then
    { attempted := [], remaining := containers, result := none }
  else
    let containersToRemove := containers
    let errors := (containersToRemove.filter removeFails).map
      (fun id => "Failed to remove " ++ id.take 12)
    { attempted := containersToRemove
      remaining := []
      result :=
        if errors.length > 0 then
          some ("cleanup completed with " ++ toString errors.length ++ " errors")
        else none }

/-- One job-level outcome as observed by the scheduler: the job name, its
`allow_failure` flag and the error `RunJob` reported (`none` = success). -/
structure JobOutcome where
  name : String
  allowFailure : Bool
  err : Option String
  deriving Repr, DecidableEq

/-- A scheduler run: final success/failure counts and the value the
pipeline run returns. -/
structure SchedResult where
  successCount : Nat
  failureCount : Nat
  result : Option String
  deriving Repr, DecidableEq

/-- The job loop of `runJobsSequential` (internal/handlers/clean.go,
lines 343-401): on a failure the loop returns at once unless the
continue-on-error flag or the allow-failure flag of the job holds; after the
loop, a non-nil error is returned iff some job failed and the
continue-on-error flag is not set. -/
def runJobsSequentialLoop (continueOnError : Bool) (succ fail : Nat) :
    List JobOutcome → SchedResult
  | [] =>
    { successCount := succ, failureCount := fail,
      result :=
        if fail > 0 ∧ ¬ continueOnError then
          some (toString fail ++ " job(s) failed")
        else none }
  | j :: rest =>
    match j.err with
    | some e =>
      if ¬ continueOnError ∧ ¬ j.allowFailure then
        { successCount := succ, failureCount := fail + 1,
          result := some ("job " ++ sq ++ j.name ++ sq ++ " failed: " ++ e) }
      else
        runJobsSequentialLoop continueOnError succ (fail + 1) rest
    | none => runJobsSequentialLoop continueOnError (succ + 1) fail rest

/-- Embeds `runJobsSequential` over the per-job outcomes, in iteration order. -/
def runJobsSequential (continueOnError : Bool) (jobs : List JobOutcome) :
    SchedResult :=
  runJobsSequentialLoop continueOnError 0 0 jobs

/-- Embeds `runJobsParallel` (internal/handlers/clean.go, lines 404-518) over
the drained per-job results, in drain order: all results are counted;
the first failure is remembered only when the continue-on-error flag is
not set; the final return is the wrapped first error when one was
remembered, else a failure-count error whenever any job failed — this
last check is not gated on the continue-on-error flag in the source. -/
def runJobsParallel (continueOnError : Bool) (results : List JobOutcome) :
    SchedResult :=
  let successCount := (results.filter (fun j => j.err.isNone)).length
  let failureCount := (results.filter (fun j => j.err.isSome)).length
  let firstError : Option String :=
    if continueOnError then none else results.findSome? (fun j => j.err)
  { successCount := successCount
    failureCount := failureCount
    result :=
      match firstError with
      | some e => some ("pipeline failed: " ++ e)
      | none =>
        if failureCount > 0 then some (toString failureCount ++ " job(s) failed")
        else none }

/-- The error message `checkCircularDependencies` produces on revisiting
a job already in the current path. -/
def mkCycleMsg (visited : List String) (jobName : String) : String :=
  "circular dependency detected: " ++
    String.intercalate " -> " (visited ++ [jobName])

/-- Embeds `checkCircularDependencies` (internal/handlers/clean.go, lines
721-741): depth-first search from `jobName` carrying the walked path in
`visited`; revisiting a job in the path reports the whole walked chain;
otherwise the needs are explored in order and the first error found is
returned (a dangling need is skipped).  The Go recursion terminates
because the path only ever collects distinct existing job names; the
embedding makes that explicit with a fuel argument, and the caller below
supplies fuel exceeding the number of jobs. -/
def checkCircularDependencies (allJobs : List (String × Job)) :
    Nat → String → Job → List String → Option String
  | 0, _, _, _ => none
  | fuel + 1, jobName, job, visited =>
    if jobName ∈ visited then some (mkCycleMsg visited jobName)
    else
      job.Needs.findSome? fun need =>
        match allJobs.lookup need with
        | some dependentJob =>
          checkCircularDependencies allJobs fuel need dependentJob
            (visited ++ [jobName])
        | none => none

/-- The strict-mode checks of `validatePipeline` for one job. -/
def strictJobChecks (jobName : String) (job : Job) : List String :=
  (if job.RunsOn = "" ∧ job.Image = "" ∧ job.Container.isNone ∧
      job.Tags.isEmpty then
    ["job " ++ sq ++ jobName ++ sq ++ " has no runner specified"]
   else [])
  ++ job.Steps.enum.flatMap (fun istep =>
      (if istep.2.Name = "" ∧ istep.2.Run = "" ∧ istep.2.Uses = "" then
        ["job " ++ sq ++ jobName ++ sq ++ " step " ++ toString (istep.1 + 1) ++
          " is empty"]
       else [])
      ++ (if istep.2.TimeoutMin < 0 then
        ["job " ++ sq ++ jobName ++ sq ++ " step " ++ toString (istep.1 + 1) ++
          " has invalid timeout"]
       else []))
  ++ (job.Environment.filterMap fun kv =>
      if kv.1 = "" then
        some ("job " ++ sq ++ jobName ++ sq ++
          " has empty environment variable key")
      else none)
  ++ (match job.Artifacts with
      | some paths =>
        if paths.isEmpty then
          ["job " ++ sq ++ jobName ++ sq ++ " has artifacts defined but no paths"]
        else []
      | none => [])
  ++ (match job.Cache with
      | some paths =>
        if paths.isEmpty then
          ["job " ++ sq ++ jobName ++ sq ++ " has cache defined but no paths"]
        else []
      | none => [])

/-- The per-job checks of `validatePipeline` (steps-or-trigger, stage
existence, dangling needs, circular dependency, strict checks). -/
def validateJob (pipeline : Pipeline) (strict : Bool) (jobName : String)
    (job : Job) : List String :=
  let stageMap := pipeline.Stages
  let jobNames := pipeline.Jobs.map Prod.fst
  (if job.Steps.isEmpty ∧ job.Trigger.isNone then
    ["job " ++ sq ++ jobName ++ sq ++ " has no steps or trigger"]
   else [])
  ++ (if job.Stage ≠ "" ∧ ¬ stageMap.isEmpty ∧ job.Stage ∉ stageMap then
    ["job " ++ sq ++ jobName ++ sq ++ " references undefined stage " ++
      sq ++ job.Stage ++ sq]
   else [])
  ++ (job.Needs.filterMap fun need =>
      if need ∈ jobNames then none
      else
        some ("job " ++ sq ++ jobName ++ sq ++
          " depends on non-existent job " ++ sq ++ need ++ sq))
  ++ (match checkCircularDependencies pipeline.Jobs
        (pipeline.Jobs.length + 1) jobName job [] with
      | some e => [e]
      | none => [])
  ++ (if strict then strictJobChecks jobName job else [])

/-- Embeds `validatePipeline` (internal/handlers/clean.go, lines 622-718): a
non-throwing collection of error strings over the whole pipeline.  The Go
`for jobName, job := range pipeline.Jobs` map iteration is modelled in
association-list order; the claims only concern membership in the
returned list, which does not depend on that order. -/
def validatePipeline (pipeline : Pipeline) (strict : Bool) : List String :=
  (if pipeline.Name = "" then ["pipeline name is empty"] else [])
  ++ (if pipeline.Jobs.isEmpty then ["no jobs defined in pipeline"] else [])
  ++ pipeline.Jobs.flatMap fun entry =>
      validateJob pipeline strict entry.1 entry.2

/-- The dependency edges explored by `checkCircularDependencies`: `a`
resolves to a job whose `needs` contains `b`, and `b` itself resolves (a
dangling need is never entered). -/
def NeedsEdge (jobs : List (String × Job)) (a b : String) : Prop :=
  ∃ ja, jobs.lookup a = some ja ∧ b ∈ ja.Needs ∧ (jobs.lookup b).isSome

/-- The `needs` relation (restricted to existing jobs) has a cycle: a
closed, non-empty edge walk from some job back to itself. -/
def NeedsCycle (jobs : List (String × Job)) : Prop :=
  ∃ v p, List.Chain (NeedsEdge jobs) v (p ++ [v])

/-- The recursion structure of `checkCircularDependencies`: from `v`,
with the walked path `visited`, some `needs`-walk reaches a job already
on the path. -/
inductive Closes (jobs : List (String × Job)) : List String → String → Prop
  | base (visited : List String) (v : String) (h : v ∈ visited) :
      Closes jobs visited v
  | step (visited : List String) (v w : String) (he : NeedsEdge jobs v w)
      (hc : Closes jobs (visited ++ [v]) w) : Closes jobs visited v

/-- Number of distinct job keys not yet on the walked path — the
termination measure of the depth-first search. -/
def keysLeft (jobs : List (String × Job)) (visited : List String) : Nat :=
  (((jobs.map Prod.fst).dedup).filter (fun k => decide (k ∉ visited))).length

/-- Specification helper: what the job-step loop records for a block of
steps starting at index `i` when no failure aborts it — the triple
(completed, failed, skipped). -/
def countSteps (stepResult : Nat → Option String) (i : Nat) :
    List Step → Nat × Nat × Nat
  | [] => (0, 0, 0)
  | step :: rest =>
    let c := countSteps stepResult (i + 1) rest
    if ¬ shouldRunStep step then (c.1, c.2.1, c.2.2 + 1)
    else
      match stepResult i with
      | some _ => (c.1, c.2.1 + 1, c.2.2)
      | none => (c.1 + 1, c.2.1, c.2.2)

/-! ### Concrete inputs used by counterexamples and bug witnesses -/

/-- A job with a single failing step that does not continue on error
(C1): the step summary must mark the job failed. -/
def c1Job : Job :=
  { Name := "build", Steps := [{ Name := "compile", Run := "exit 1" }] }

/-- A job whose only step fails but is marked continue-on-error (C4). -/
def c4Job : Job :=
  { Name := "j",
    Steps := [{ Name := "flaky", Run := "false", ContinueOnErr := true }] }

/-- The script the Docker backend generates for `c4Job` with a default
(non-verbose) configuration. -/
def c4Script : List String := buildJobScript {} c4Job

/-- Failure oracle for the generated `c4Job` script: only the step
command `false` exits non-zero. -/
def c4Fails : String → Bool := fun l => l == "false"

/-- Runner configuration carrying one pipeline-wide variable (C5). -/
def c5Cfg : RunnerConfig := { Environment := [("DEPLOY_ENV", "pipeline")] }

/-- Job overriding the same variable at job level (C5). -/
def c5Job : Job :=
  { Name := "deploy", Environment := [("DEPLOY_ENV", "job")] }

/-- The effective environment the single (env-less) step of `c5Job` sees
under `c5Cfg`, over an empty OS environment. -/
def c5Code : String → Option String :=
  effectiveStepEnv c5Cfg c5Job {} "/ws" (fun _ => none) "" ""

/-- The environment the spec sentence prescribes for the same input. -/
def c5Spec : String → Option String :=
  specLayeredEnv (fun _ => none) (runnerEnvironment c5Job "/ws" "" "")
    c5Cfg.Environment c5Job.Environment []

/-- A single failing job outcome, used to compare the two schedulers
under the continue-on-error flag (C2). -/
def c2Outcome : JobOutcome := { name := "a", allowFailure := false, err := some "boom" }

/-- A concrete prepared command for the retry witness (C6). -/
def c6Cmd : GoCmd :=
  { path := "bash", argsTail := ["-eo", "pipefail", "-c", "false"],
    dir := "/ws", env := fun _ => none }

/-- A concrete retry policy with two attempts and a parseable delay
(C6). -/
def c6Policy : RetryPolicy := { MaxAttempts := 2, Delay := "1s" }

/-- A two-job pipeline whose `needs` relation is the cycle
`a -> b -> a` (C7 witness). -/
def c7Pipeline : Pipeline :=
  { Name := "p",
    Jobs :=
      [("a", { Name := "a", Needs := ["b"],
               Steps := [{ Name := "s", Run := "true" }] }),
       ("b", { Name := "b", Needs := ["a"],
               Steps := [{ Name := "s", Run := "true" }] })] }

/-! ### Theorems -/

/-- Helper: `findSome?` returns `none` iff every element maps to `none`. -/
theorem findSome?_eq_none_iff {α β : Type} {f : α → Option β} :
    ∀ {l : List α}, l.findSome? f = none ↔ ∀ a ∈ l, f a = none := by
  intro l
  induction l with
  | nil => simp [List.findSome?]
  | cons a rest ih =>
    cases h : f a with
    | some b => simp [List.findSome?, h]
    | none => simp [List.findSome?, h, ih]

/-- Helper: a `some` result of `findSome?` comes from some element. -/
theorem exists_of_findSome?_eq_some {α β : Type} {f : α → Option β}
    {b : β} : ∀ {l : List α}, l.findSome? f = some b →
    ∃ a, a ∈ l ∧ f a = some b := by
  intro l
  induction l with
  | nil => simp [List.findSome?]
  | cons a rest ih =>
    intro h
    cases ha : f a with
    | some c =>
      refine ⟨a, List.mem_cons_self a rest, ?_⟩
      rw [List.findSome?] at h
      rw [ha] at h
      simpa [ha] using h
    | none =>
      rw [List.findSome?] at h
      rw [ha] at h
      obtain ⟨x, hx, hfx⟩ := ih h
      exact ⟨x, List.mem_cons_of_mem a hx, hfx⟩

/-- Helper: if some element maps to `some`, `findSome?` is not `none`. -/
theorem findSome?_ne_none_of_mem {α β : Type} {f : α → Option β}
    {l : List α} {a : α} (ha : a ∈ l) (hf : f a ≠ none) :
    l.findSome? f ≠ none := by
  intro hnone
  exact hf (findSome?_eq_none_iff.mp hnone a ha)

/-- C8: the step `if` guard evaluator maps exactly `always()` and
`success()` (and, by default, every other string including the empty one)
to true and exactly `failure()` and `cancelled()` to false; consequently
a step whose `if` is `failure()` is always skipped by the job loop — it
is counted as skipped, never run, never failed. -/
theorem C8_if_guard_evaluation :
    (∀ step : Step,
      shouldRunStep step = false ↔
        (step.If = "failure()" ∨ step.If = "cancelled()")) ∧
    (∀ (cfg : RunnerConfig) (name : String) (step : Step)
      (res : Nat → Option String) (el : Nat → Bool),
      cfg.Timeout = 0 → step.If = "failure()" →
      runJobSteps cfg name [step] res el =
        { JobName := name, TotalSteps := 1, SkippedSteps := 1,
          Success := true }) := by
  have hguard : ∀ step : Step,
      shouldRunStep step = false ↔
        (step.If = "failure()" ∨ step.If = "cancelled()") := by
    intro step
    by_cases h0 : step.If = ""
    · simp [shouldRunStep, h0]
    · by_cases hA : step.If = "always()"
      · simp [shouldRunStep, h0, hA]
      · by_cases hS : step.If = "success()"
        · simp [shouldRunStep, h0, hS]
        · by_cases hF : step.If = "failure()"
          · simp [shouldRunStep, h0, hA, hS, hF]
          · by_cases hC : step.If = "cancelled()"
            · simp [shouldRunStep, h0, hA, hS, hF, hC]
            · simp [shouldRunStep, h0, hA, hS, hF, hC]
  refine ⟨hguard, ?_⟩
  intro cfg name step res el hT hIf
  have hg : shouldRunStep step = false := (hguard step).mpr (Or.inl hIf)
  unfold runJobSteps runJobStepsLoop
  rw [hT, hg]
  simp [runJobStepsLoop]

/-- C8 witness: a concrete step with `if: failure()` evaluates to a
skipped step in a concrete job run. -/
theorem C8_if_guard_evaluation_witness :
    shouldRunStep { Name := "s", If := "failure()" } = false ∧
    runJobSteps {} "j" [{ Name := "s", If := "failure()" }]
        (fun _ => none) (fun _ => false) =
      { JobName := "j", TotalSteps := 1, SkippedSteps := 1,
        Success := true } :=
  ⟨(C8_if_guard_evaluation.1 { Name := "s", If := "failure()" }).mpr
      (Or.inl rfl),
   C8_if_guard_evaluation.2 {} "j" { Name := "s", If := "failure()" }
      (fun _ => none) (fun _ => false) rfl rfl⟩

/-- C10: `DockerRunner.Cleanup` always leaves the tracked-container list
empty — also when some removals fail — and is therefore idempotent on
that state: an immediately following call attempts no removals and
returns `nil`. -/
theorem C10_cleanup_clears_and_idempotent :
    ∀ (containers : List String) (removeFails : String → Bool),
      (dockerCleanup containers removeFails).remaining = [] ∧
      dockerCleanup (dockerCleanup containers removeFails).remaining removeFails =
        { attempted := [], remaining := [], result := none } := by
  intro containers removeFails
  have hempty : dockerCleanup [] removeFails =
      { attempted := [], remaining := [], result := none } := by
    unfold dockerCleanup
    simp
  have hrem : (dockerCleanup containers removeFails).remaining = [] := by
    unfold dockerCleanup
    split_ifs with h
    · simpa using List.isEmpty_iff.mp (by simpa using h)
    · rfl
  exact ⟨hrem, by rw [hrem]; exact hempty⟩

/-- C1 (bug evidence): `BashRunner.RunJob`, run on a job whose only step
fails without continue-on-error, records the job as failed in its own
summary (`Success = false`, one failed step, a collected error) and yet
returns `nil` — modelled as `Except.ok` — so the failure never reaches
the scheduler, contradicting the §4.2 contract that `RunJob` returns
non-nil exactly when the job is to be treated as failed. -/
theorem C1_bash_runjob_swallows_failure :
    ∃ s : JobSummary,
      bashRunJob { Timeout := 0 } c1Job
          (fun _ => some "command failed: exit status 1")
          (fun _ => false) none = .ok s ∧
      s.Success = false ∧ s.FailedSteps = 1 ∧ s.Errors ≠ [] :=
  ⟨_, rfl, rfl, rfl, by decide⟩

/-- C4 (bug evidence): for a job whose only step runs `false` with
continue-on-error set, `DockerRunner.buildJobScript` emits the command
and `|| true` as two separate lines (the suffix is an orphan line, not
attached to the command), and under the `set -e` option the script opens
with, the failing step aborts the script: the remaining lines (the
step-completed echo and the final success echo) never execute and the
script exits non-zero, so the container exits non-zero — contradicting
the failure-tolerant-suffix behavior the spec describes. -/
theorem C4_continue_on_error_suffix_is_orphan_line :
    c4Script =
      ["#!/bin/sh", "set -e", "",
       "echo " ++ sq ++ "Setting up environment..." ++ sq, "",
       "echo " ++ sq ++ sq,
       "echo " ++ sq ++ "[1/1] flaky" ++ sq,
       "echo " ++ sq ++ String.replicate 60 (Char.ofNat 45) ++ sq,
       "false",
       "|| true",
       "echo " ++ sq ++ "Step completed" ++ sq,
       "", "echo " ++ sq ++ sq,
       "echo " ++ sq ++ "All steps completed successfully!" ++ sq] ∧
    (∀ l ∈ c4Script, strHasSuffix l "|| true" → l = "|| true") ∧
    (runScriptSetE c4Fails c4Script).2 = false ∧
    ("echo " ++ sq ++ "Step completed" ++ sq) ∉
      (runScriptSetE c4Fails c4Script).1 := by
  refine ⟨by rfl, by decide, by rfl, by decide⟩

/-- C2 counterexample: with the continue-on-error flag set and the same
single failing job outcome, the sequential scheduler returns no error
while the parallel scheduler returns one — the two modes do not
aggregate identically, refuting in particular "with the continue-on-error
flag set ... the run itself returns no error in either mode". -/
theorem C2_parallel_differs_from_sequential :
    (runJobsSequential true [c2Outcome]).result = none ∧
    (runJobsParallel true [c2Outcome]).result = some "1 job(s) failed" := by
  constructor <;> rfl

/-- C9: a step with neither a `run:` command nor a `uses:` reference is
silently treated as a success: `RunStep` returns `nil` without spawning
any subprocess, and the job loop counts such a guard-passing step as a
completed step. -/
theorem C9_zero_directive_step_is_success :
    (∀ (cfg : RunnerConfig) (step : Step)
       (osEnv env : String → Option String)
       (renv : List (String × String)) (workdir dsh : String)
       (pd : String → Option Duration) (ar : Nat → Option String)
       (gro : Bool) (fe : Option String),
      step.Run = "" → step.Uses = "" →
      runStep cfg step osEnv renv env workdir dsh pd ar gro fe =
        { result := none, spawned := [] }) ∧
    (∀ (cfg : RunnerConfig) (name : String) (step : Step)
       (osEnv env : String → Option String)
       (renv : List (String × String)) (workdir dsh : String)
       (pd : String → Option Duration) (ar : Nat → Option String)
       (gro : Bool) (fe : Option String) (el : Nat → Bool),
      cfg.Timeout = 0 → step.Run = "" → step.Uses = "" →
      shouldRunStep step = true →
      runJobSteps cfg name [step]
          (fun _ => (runStep cfg step osEnv renv env workdir dsh pd ar gro fe).result)
          el =
        { JobName := name, TotalSteps := 1, CompletedSteps := 1,
          Success := true }) := by
  have hstep : ∀ (cfg : RunnerConfig) (step : Step)
      (osEnv env : String → Option String)
      (renv : List (String × String)) (workdir dsh : String)
      (pd : String → Option Duration) (ar : Nat → Option String)
      (gro : Bool) (fe : Option String),
      step.Run = "" → step.Uses = "" →
      runStep cfg step osEnv renv env workdir dsh pd ar gro fe =
        { result := none, spawned := [] } := by
    intro cfg step osEnv env renv workdir dsh pd ar gro fe hRun hUses
    simp [runStep, hRun, hUses]
  refine ⟨hstep, ?_⟩
  intro cfg name step osEnv env renv workdir dsh pd ar gro fe el hT hRun hUses hg
  rw [hstep cfg step osEnv env renv workdir dsh pd ar gro fe hRun hUses]
  unfold runJobSteps runJobStepsLoop
  rw [hT, hg]
  simp [runJobStepsLoop]

/-- C9 witness: the concrete zero-directive step at concrete oracles. -/
theorem C9_zero_directive_step_is_success_witness :
    runStep {} { Name := "noop" } (fun _ => none) [] (fun _ => none) "/ws"
        "bash" (fun _ => none) (fun _ => none) true none =
      { result := none, spawned := [] } ∧
    runJobSteps {} "j" [{ Name := "noop" }]
        (fun _ => (runStep {} { Name := "noop" } (fun _ => none) [] (fun _ => none)
          "/ws" "bash" (fun _ => none) (fun _ => none) true none).result)
        (fun _ => false) =
      { JobName := "j", TotalSteps := 1, CompletedSteps := 1,
        Success := true } :=
  ⟨C9_zero_directive_step_is_success.1 {} { Name := "noop" } (fun _ => none)
      (fun _ => none) [] "/ws" "bash" (fun _ => none) (fun _ => none) true none
      rfl rfl,
   C9_zero_directive_step_is_success.2 {} "j" { Name := "noop" }
      (fun _ => none) (fun _ => none) [] "/ws" "bash" (fun _ => none)
      (fun _ => none) true none (fun _ => false) rfl rfl rfl rfl⟩

/-- C5 counterexample: with a pipeline-wide variable (runner
configuration environment) and a job-level variable of the same name,
the claimed layering gives the job value, but the code
(`mergeEnvironments(job.Environment, config.Environment)`) gives the
pipeline value — the pipeline layer overrides the job layer, not the
other way around. -/
theorem C5_counterexample :
    c5Code "DEPLOY_ENV" = some "pipeline" ∧
    c5Spec "DEPLOY_ENV" = some "job" ∧
    c5Code "DEPLOY_ENV" ≠ c5Spec "DEPLOY_ENV" := by
  refine ⟨by rfl, by rfl, by decide⟩

/-- C5 amended: the environment is layered, each later layer overriding
same-named keys, but in the order base OS environment < runner markers <
job environment < pipeline-wide (runner configuration) environment <
step environment; consequently every pipeline-level variable is present
in the environment of every executed step unless overridden by a step-level
value (a job-level value cannot override it). -/
theorem C5_amended_layering :
    (∀ (cfg : RunnerConfig) (job : Job) (step : Step)
       (workdir gb gc : String) (osEnv : String → Option String) (k : String),
      effectiveStepEnv cfg job step workdir osEnv gb gc k =
        specLayeredEnv osEnv (runnerEnvironment job workdir gb gc)
          job.Environment cfg.Environment step.Env k) ∧
    (∀ (cfg : RunnerConfig) (job : Job) (step : Step)
       (workdir gb gc : String) (osEnv : String → Option String)
       (k v : String),
      lookupEnv cfg.Environment k = some v →
      lookupEnv step.Env k = none →
      effectiveStepEnv cfg job step workdir osEnv gb gc k = some v) := by
  have hlayer : ∀ (cfg : RunnerConfig) (job : Job) (step : Step)
      (workdir gb gc : String) (osEnv : String → Option String) (k : String),
      effectiveStepEnv cfg job step workdir osEnv gb gc k =
        specLayeredEnv osEnv (runnerEnvironment job workdir gb gc)
          job.Environment cfg.Environment step.Env k := by
    intro cfg job step workdir gb gc osEnv k
    unfold effectiveStepEnv specLayeredEnv buildStepEnvironment
      mergeEnvironments
    cases h1 : lookupEnv step.Env k <;>
      cases h2 : lookupEnv cfg.Environment k <;>
        cases h3 : lookupEnv job.Environment k <;>
          simp [h1, h2, h3, Option.orElse]
  refine ⟨hlayer, ?_⟩
  intro cfg job step workdir gb gc osEnv k v hcfg hstep
  rw [hlayer]
  unfold specLayeredEnv
  simp [hcfg, hstep, Option.orElse]

/-- C5 amended witness: a pipeline-level variable with no step-level
override survives into the effective step environment. -/
theorem C5_amended_layering_witness :
    effectiveStepEnv c5Cfg c5Job {} "/ws" (fun _ => none) "" "" "DEPLOY_ENV" =
      specLayeredEnv (fun _ => none) (runnerEnvironment c5Job "/ws" "" "")
        c5Job.Environment c5Cfg.Environment ([] : List (String × String))
        "DEPLOY_ENV" ∧
    effectiveStepEnv c5Cfg c5Job {} "/ws" (fun _ => none) "" "" "DEPLOY_ENV" =
      some "pipeline" :=
  ⟨C5_amended_layering.1 c5Cfg c5Job {} "/ws" "" "" (fun _ => none)
      "DEPLOY_ENV",
   C5_amended_layering.2 c5Cfg c5Job {} "/ws" "" "" (fun _ => none)
      "DEPLOY_ENV" "pipeline" rfl rfl⟩

/-- With the continue-on-error flag set the sequential loop never
early-returns: it simply counts successes and failures and ends with no
error. -/
theorem runJobsSequentialLoop_continue :
    ∀ (jobs : List JobOutcome) (succ fail : Nat),
      runJobsSequentialLoop true succ fail jobs =
        { successCount := succ + (jobs.filter (fun j => j.err.isNone)).length,
          failureCount := fail + (jobs.filter (fun j => j.err.isSome)).length,
          result := none } := by
  intro jobs
  induction jobs with
  | nil => intro succ fail; simp [runJobsSequentialLoop]
  | cons j rest ih =>
    intro succ fail
    cases hj : j.err with
    | some e =>
      simp only [runJobsSequentialLoop, hj]
      rw [if_neg (by simp)]
      rw [ih]
      simp [List.filter, hj, SchedResult.mk.injEq]
      omega
    | none =>
      simp only [runJobsSequentialLoop, hj]
      rw [ih]
      simp [List.filter, hj, SchedResult.mk.injEq]
      omega

/-- The parallel scheduler returns no error exactly when no drained
result carries an error — independent of the continue-on-error flag. -/
theorem runJobsParallel_result_none_iff :
    ∀ (flag : Bool) (jobs : List JobOutcome),
      ((runJobsParallel flag jobs).result = none ↔
        (jobs.filter (fun j => j.err.isSome)).length = 0) := by
  intro flag jobs
  cases flag with
  | true =>
    by_cases h : (jobs.filter (fun j => j.err.isSome)).length = 0
    · simp [runJobsParallel, h]
    · simp [runJobsParallel, h, Nat.pos_of_ne_zero h]
  | false =>
    cases hfs : jobs.findSome? (fun j => j.err) with
    | some e =>
      obtain ⟨j, hj, hje⟩ := exists_of_findSome?_eq_some hfs
      have hmem : j ∈ jobs.filter (fun j => j.err.isSome) :=
        List.mem_filter.mpr ⟨hj, by simp [hje]⟩
      have hlen : (jobs.filter (fun j => j.err.isSome)).length ≠ 0 := by
        intro hzero
        rw [List.length_eq_zero] at hzero
        simp [hzero] at hmem
      simp [runJobsParallel, hfs, hlen]
    | none =>
      by_cases h : (jobs.filter (fun j => j.err.isSome)).length = 0
      · simp [runJobsParallel, hfs, h]
      · simp [runJobsParallel, hfs, h, Nat.pos_of_ne_zero h]

/-- C2 amended: the two schedulers produce the same success/failure
counts over the same per-job outcomes (when the sequential loop does not
abort early, in particular whenever continuation is requested), but
their final results differ: the parallel run returns an error if and
only if some job failed, regardless of the continue-on-error flag, while
the sequential run with the flag set always returns no error. -/
theorem C2_amended_aggregation :
    ∀ (flag : Bool) (jobs : List JobOutcome),
      (runJobsParallel flag jobs).successCount =
        (jobs.filter (fun j => j.err.isNone)).length ∧
      (runJobsParallel flag jobs).failureCount =
        (jobs.filter (fun j => j.err.isSome)).length ∧
      ((runJobsParallel flag jobs).result = none ↔
        (jobs.filter (fun j => j.err.isSome)).length = 0) ∧
      runJobsSequential true jobs =
        { successCount := (jobs.filter (fun j => j.err.isNone)).length,
          failureCount := (jobs.filter (fun j => j.err.isSome)).length,
          result := none } := by
  intro flag jobs
  refine ⟨rfl, rfl, runJobsParallel_result_none_iff flag jobs, ?_⟩
  unfold runJobsSequential
  rw [runJobsSequentialLoop_continue]
  simp

/-- The completed/failed/skipped counts sum to the number of steps. -/
theorem countSteps_total (res : Nat → Option String) :
    ∀ (l : List Step) (i : Nat),
      (countSteps res i l).1 + (countSteps res i l).2.1 +
        (countSteps res i l).2.2 = l.length := by
  intro l
  induction l with
  | nil => intro i; simp [countSteps]
  | cons step rest ih =>
    intro i
    by_cases hg : shouldRunStep step
    · cases hres : res i with
      | some e => simp [countSteps, hg, hres]; have := ih (i + 1); omega
      | none => simp [countSteps, hg, hres]; have := ih (i + 1); omega
    · simp [countSteps, hg]; have := ih (i + 1); omega

/-- No step in the block fails, so the failed count is zero. -/
theorem countSteps_fail_zero (res : Nat → Option String) :
    ∀ (l : List Step) (i : Nat),
      (∀ j, j < l.length → res (i + j) = none) →
      (countSteps res i l).2.1 = 0 := by
  intro l
  induction l with
  | nil => intro i _; simp [countSteps]
  | cons step rest ih =>
    intro i h
    have hres : res i = none := by simpa using h 0 (by simp)
    have hrest : ∀ j, j < rest.length → res (i + 1 + j) = none := by
      intro j hj
      have := h (j + 1) (by simpa using Nat.succ_lt_succ hj)
      have harith : i + 1 + j = i + (j + 1) := by omega
      rw [harith]
      exact this
    by_cases hg : shouldRunStep step
    · simp [countSteps, hg, hres, ih (i + 1) hrest]
    · simp [countSteps, hg, ih (i + 1) hrest]

/-- Exactly one guard-passing step in the block fails, so the failed
count is one. -/
theorem countSteps_fail_one (res : Nat → Option String) :
    ∀ (l : List Step) (i k : Nat) (hk : k < l.length),
      shouldRunStep (l.get ⟨k, hk⟩) = true →
      (res (i + k)).isSome = true →
      (∀ j, j < l.length → j ≠ k → res (i + j) = none) →
      (countSteps res i l).2.1 = 1 := by
  intro l
  induction l with
  | nil => intro i k hk; simp at hk
  | cons step rest ih =>
    intro i k hk hguard hfail hothers
    cases k with
    | zero =>
      have hres : (res i).isSome = true := by simpa using hfail
      have hg : shouldRunStep step = true := by simpa using hguard
      obtain ⟨e, he⟩ := Option.isSome_iff_exists.mp hres
      have hrest : ∀ j, j < rest.length → res (i + 1 + j) = none := by
        intro j hj
        have := hothers (j + 1) (by simpa using Nat.succ_lt_succ hj)
          (by simp)
        have harith : i + 1 + j = i + (j + 1) := by omega
        rw [harith]
        exact this
      simp [countSteps, hg, he, countSteps_fail_zero res rest (i + 1) hrest]
    | succ k₀ =>
      have hres : res i = none := by
        simpa using hothers 0 (by simp) (by simp)
      have hk₀ : k₀ < rest.length := by simpa using Nat.lt_of_succ_lt_succ hk
      have hguard₀ : shouldRunStep (rest.get ⟨k₀, hk₀⟩) = true := by
        simpa using hguard
      have hfail₀ : (res (i + 1 + k₀)).isSome = true := by
        have harith : i + 1 + k₀ = i + (k₀ + 1) := by omega
        rw [harith]
        exact hfail
      have hothers₀ : ∀ j, j < rest.length → j ≠ k₀ → res (i + 1 + j) = none := by
        intro j hj hne
        have := hothers (j + 1) (by simpa using Nat.succ_lt_succ hj)
          (by simpa using hne)
        have harith : i + 1 + j = i + (j + 1) := by omega
        rw [harith]
        exact this
      have htail := ih (i + 1) k₀ hk₀ hguard₀ hfail₀ hothers₀
      by_cases hg : shouldRunStep step
      · simp [countSteps, hg, hres, htail]
      · simp [countSteps, hg, htail]

/-- When the job timeout is off and every failing, guard-passing step in
the block carries continue-on-error, the loop processes the whole block
and only adds the counts of the block to the summary — success flag and
collected errors are untouched. -/
theorem runJobStepsLoop_no_abort (cfg : RunnerConfig)
    (res : Nat → Option String) (el : Nat → Bool) (hT : cfg.Timeout = 0) :
    ∀ (remaining : List Step) (i : Nat) (s : JobSummary),
      (∀ j (hj : j < remaining.length),
        shouldRunStep (remaining.get ⟨j, hj⟩) = true →
        (res (i + j)).isSome = true →
        (remaining.get ⟨j, hj⟩).ContinueOnErr = true) →
      runJobStepsLoop cfg res el i remaining s =
        { s with
          CompletedSteps := s.CompletedSteps + (countSteps res i remaining).1
          FailedSteps := s.FailedSteps + (countSteps res i remaining).2.1
          SkippedSteps := s.SkippedSteps + (countSteps res i remaining).2.2 } := by
  intro remaining
  induction remaining with
  | nil => intro i s _; simp [runJobStepsLoop, countSteps]
  | cons step rest ih =>
    intro i s h
    have hrest : ∀ j (hj : j < rest.length),
        shouldRunStep (rest.get ⟨j, hj⟩) = true →
        (res (i + 1 + j)).isSome = true →
        (rest.get ⟨j, hj⟩).ContinueOnErr = true := by
      intro j hj hg hf
      have harith : i + 1 + j = i + (j + 1) := by omega
      refine h (j + 1) (by simpa using Nat.succ_lt_succ hj) (by simpa using hg) ?_
      rw [← harith]
      exact hf
    by_cases hg : shouldRunStep step
    · cases hres : res i with
      | some e =>
        have hcont : step.ContinueOnErr = true := by
          have := h 0 (by simp) (by simpa using hg)
          simp [hres] at this
          exact this
        rw [show runJobStepsLoop cfg res el i (step :: rest) s =
            runJobStepsLoop cfg res el (i + 1) rest
              { s with FailedSteps := s.FailedSteps + 1 } by
          simp [runJobStepsLoop, hT, hg, hres, hcont]]
        rw [ih (i + 1) _ hrest]
        simp [countSteps, hg, hres]
        omega
      | none =>
        rw [show runJobStepsLoop cfg res el i (step :: rest) s =
            runJobStepsLoop cfg res el (i + 1) rest
              { s with CompletedSteps := s.CompletedSteps + 1 } by
          simp [runJobStepsLoop, hT, hg, hres]]
        rw [ih (i + 1) _ hrest]
        simp [countSteps, hg, hres]
        omega
    · rw [show runJobStepsLoop cfg res el i (step :: rest) s =
          runJobStepsLoop cfg res el (i + 1) rest
            { s with SkippedSteps := s.SkippedSteps + 1 } by
        simp [runJobStepsLoop, hT, hg]]
      rw [ih (i + 1) _ hrest]
      simp [countSteps, hg]
      omega

/-- When the job timeout is off, the steps before index `k` all succeed
(or are skipped), and the step at `k` passes its guard, fails and does
not continue on error, the loop stops at `k`: it records the prefix
counts, one failed step, flips the success flag, appends the step error,
and never touches the steps after `k`. -/
theorem runJobStepsLoop_abort (cfg : RunnerConfig)
    (res : Nat → Option String) (el : Nat → Bool) (hT : cfg.Timeout = 0) :
    ∀ (remaining : List Step) (k i : Nat) (s : JobSummary)
      (hk : k < remaining.length) (e : String),
      (∀ j, j < k → res (i + j) = none) →
      shouldRunStep (remaining.get ⟨k, hk⟩) = true →
      res (i + k) = some e →
      (remaining.get ⟨k, hk⟩).ContinueOnErr = false →
      runJobStepsLoop cfg res el i remaining s =
        { s with
          CompletedSteps :=
            s.CompletedSteps + (countSteps res i (remaining.take k)).1
          SkippedSteps :=
            s.SkippedSteps + (countSteps res i (remaining.take k)).2.2
          FailedSteps := s.FailedSteps + 1
          Success := false
          Errors := s.Errors ++
            ["Step " ++ sq ++ (remaining.get ⟨k, hk⟩).Name ++ sq ++
              " failed: " ++ e] } := by
  intro remaining
  induction remaining with
  | nil => intro k i s hk; simp at hk
  | cons step rest ih =>
    intro k i s hk e hpre hguard hfail hnc
    cases k with
    | zero =>
      have hg : shouldRunStep step = true := by simpa using hguard
      have hres : res i = some e := by simpa using hfail
      have hnc₀ : step.ContinueOnErr = false := by simpa using hnc
      simp [runJobStepsLoop, hT, hg, hres, hnc₀, countSteps]
    | succ k₀ =>
      have hres : res i = none := by simpa using hpre 0 (Nat.succ_pos k₀)
      have hk₀ : k₀ < rest.length := by simpa using Nat.lt_of_succ_lt_succ hk
      have hguard₀ : shouldRunStep (rest.get ⟨k₀, hk₀⟩) = true := by
        simpa using hguard
      have hfail₀ : res (i + 1 + k₀) = some e := by
        have harith : i + 1 + k₀ = i + (k₀ + 1) := by omega
        rw [harith]
        exact hfail
      have hnc₀ : (rest.get ⟨k₀, hk₀⟩).ContinueOnErr = false := by
        simpa using hnc
      have hpre₀ : ∀ j, j < k₀ → res (i + 1 + j) = none := by
        intro j hj
        have := hpre (j + 1) (Nat.succ_lt_succ hj)
        have harith : i + 1 + j = i + (j + 1) := by omega
        rw [harith]
        exact this
      by_cases hg : shouldRunStep step
      · rw [show runJobStepsLoop cfg res el i (step :: rest) s =
            runJobStepsLoop cfg res el (i + 1) rest
              { s with CompletedSteps := s.CompletedSteps + 1 } by
          simp [runJobStepsLoop, hT, hg, hres]]
        rw [ih k₀ (i + 1) _ hk₀ e hpre₀ hguard₀ hfail₀ hnc₀]
        simp [countSteps, hg, hres]
        omega
      · rw [show runJobStepsLoop cfg res el i (step :: rest) s =
            runJobStepsLoop cfg res el (i + 1) rest
              { s with SkippedSteps := s.SkippedSteps + 1 } by
          simp [runJobStepsLoop, hT, hg]]
        rw [ih k₀ (i + 1) _ hk₀ e hpre₀ hguard₀ hfail₀ hnc₀]
        simp [countSteps, hg]
        omega

/-- C3: in the job execution of the process backend (job wall-clock timeout
off), a failing step with continue-on-error is counted as failed without
flipping the job success flag, and the remaining steps still run —
for a job whose only failing step continues on error the summary shows
`Success = true`, `FailedSteps = 1`, every other step completed or
skipped, and no collected errors; whereas a failing step without
continue-on-error marks the job failed, records the step error, and
stops: only the `k` earlier steps are accounted, none after it. -/
theorem C3_step_failure_policy :
    (∀ (cfg : RunnerConfig) (name : String) (steps : List Step)
       (res : Nat → Option String) (el : Nat → Bool) (k : Nat)
       (hk : k < steps.length),
      cfg.Timeout = 0 →
      shouldRunStep (steps.get ⟨k, hk⟩) = true →
      (res k).isSome = true →
      (steps.get ⟨k, hk⟩).ContinueOnErr = true →
      (∀ j, j < steps.length → j ≠ k → res j = none) →
      (runJobSteps cfg name steps res el).Success = true ∧
      (runJobSteps cfg name steps res el).FailedSteps = 1 ∧
      (runJobSteps cfg name steps res el).CompletedSteps +
          (runJobSteps cfg name steps res el).SkippedSteps =
        steps.length - 1 ∧
      (runJobSteps cfg name steps res el).Errors = []) ∧
    (∀ (cfg : RunnerConfig) (name : String) (steps : List Step)
       (res : Nat → Option String) (el : Nat → Bool) (k : Nat)
       (hk : k < steps.length) (e : String),
      cfg.Timeout = 0 →
      (∀ j, j < k → res j = none) →
      shouldRunStep (steps.get ⟨k, hk⟩) = true →
      res k = some e →
      (steps.get ⟨k, hk⟩).ContinueOnErr = false →
      (runJobSteps cfg name steps res el).Success = false ∧
      (runJobSteps cfg name steps res el).FailedSteps = 1 ∧
      (runJobSteps cfg name steps res el).CompletedSteps +
          (runJobSteps cfg name steps res el).SkippedSteps = k ∧
      (runJobSteps cfg name steps res el).Errors =
        ["Step " ++ sq ++ (steps.get ⟨k, hk⟩).Name ++ sq ++
          " failed: " ++ e]) := by
  constructor
  · intro cfg name steps res el k hk hT hguard hfail hcont hothers
    have hno : ∀ j (hj : j < steps.length),
        shouldRunStep (steps.get ⟨j, hj⟩) = true →
        (res (0 + j)).isSome = true →
        (steps.get ⟨j, hj⟩).ContinueOnErr = true := by
      intro j hj hg hs
      by_cases hjk : j = k
      · subst hjk; exact hcont
      · exfalso
        have hz := hothers j hj hjk
        rw [Nat.zero_add, hz] at hs
        simp at hs
    have hloop := runJobStepsLoop_no_abort cfg res el hT steps 0
      { JobName := name, TotalSteps := steps.length, Success := true } hno
    have hone := countSteps_fail_one res steps 0 k hk hguard
      (by simpa using hfail)
      (fun j hj hne => by simpa using hothers j hj hne)
    have htot := countSteps_total res steps 0
    unfold runJobSteps
    rw [hloop]
    refine ⟨by simp, by simp [hone], by simp; omega, by simp⟩
  · intro cfg name steps res el k hk e hT hpre hguard hfail hnc
    have hloop := runJobStepsLoop_abort cfg res el hT steps k 0
      { JobName := name, TotalSteps := steps.length, Success := true } hk e
      (fun j hj => by simpa using hpre j hj)
      hguard (by simpa using hfail) hnc
    have hzero := countSteps_fail_zero res (steps.take k) 0
      (fun j hj => by
        have hjk : j < k := by
          have := hj
          rw [List.length_take] at this
          omega
        simpa using hpre j hjk)
    have htot := countSteps_total res (steps.take k) 0
    have hlen : (steps.take k).length = k := by
      rw [List.length_take]
      omega
    unfold runJobSteps
    rw [hloop]
    refine ⟨by simp, by simp, by simp; omega, by simp⟩

/-- C3 witness: a two-step job whose first step fails with
continue-on-error and whose second step succeeds yields `Success = true`
and `FailedSteps = 1`; the same job without continue-on-error stops
after the failure with `Success = false`. -/
theorem C3_step_failure_policy_witness :
    ((runJobSteps {} "j"
        [{ Name := "a", Run := "false", ContinueOnErr := true },
         { Name := "b", Run := "true" }]
        (fun i => if i = 0 then some "boom" else none)
        (fun _ => false)).Success = true ∧
      (runJobSteps {} "j"
        [{ Name := "a", Run := "false", ContinueOnErr := true },
         { Name := "b", Run := "true" }]
        (fun i => if i = 0 then some "boom" else none)
        (fun _ => false)).FailedSteps = 1) ∧
    (runJobSteps {} "j"
        [{ Name := "a", Run := "false" }, { Name := "b", Run := "true" }]
        (fun i => if i = 0 then some "boom" else none)
        (fun _ => false)).Success = false := by
  have h1 := C3_step_failure_policy.1 {} "j"
    [{ Name := "a", Run := "false", ContinueOnErr := true },
     { Name := "b", Run := "true" }]
    (fun i => if i = 0 then some "boom" else none) (fun _ => false) 0
    (by simp) rfl rfl rfl rfl
    (by intro j hj hne; simp at hj; interval_cases j <;> simp_all)
  have h2 := C3_step_failure_policy.2 {} "j"
    [{ Name := "a", Run := "false" }, { Name := "b", Run := "true" }]
    (fun i => if i = 0 then some "boom" else none) (fun _ => false) 0
    (by simp) "boom" rfl (by intro j hj; omega) rfl rfl rfl
  exact ⟨⟨h1.1, h1.2.1⟩, h2.1⟩

/-- One-step unfolding of the retry loop when no delay was parsed. -/
theorem retryLoop_succ_none (cmd : GoCmd) (ar : Nat → Option String)
    (M a r : Nat) (tries : List GoCmd) (sleeps : List (Nat × Duration))
    (le : Option String) :
    retryLoop cmd none ar M a (r + 1) tries sleeps le =
      (match ar a with
      | some e =>
        retryLoop cmd none ar M (a + 1) r (tries ++ [cmd]) sleeps (some e)
      | none =>
        { tries := tries ++ [cmd], sleeps := sleeps, result := none }) := rfl

/-- One-step unfolding of the retry loop with a parsed delay. -/
theorem retryLoop_succ_some (cmd : GoCmd) (d : Duration)
    (ar : Nat → Option String) (M a r : Nat) (tries : List GoCmd)
    (sleeps : List (Nat × Duration)) (le : Option String) :
    retryLoop cmd (some d) ar M a (r + 1) tries sleeps le =
      (match ar a with
      | some e =>
        retryLoop cmd (some d) ar M (a + 1) r (tries ++ [cmd])
          (if a > 1 then sleeps ++ [(a, d)] else sleeps) (some e)
      | none =>
        { tries := tries ++ [cmd],
          sleeps := if a > 1 then sleeps ++ [(a, d)] else sleeps,
          result := none }) := rfl

/-- The retry loop starts at most `remaining` further subprocesses. -/
theorem retryLoop_tries_le (cmd : GoCmd) (dd : Option Duration)
    (ar : Nat → Option String) (M : Nat) :
    ∀ (r a : Nat) (tries : List GoCmd) (sleeps : List (Nat × Duration))
      (le : Option String),
      (retryLoop cmd dd ar M a r tries sleeps le).tries.length ≤
        tries.length + r := by
  intro r
  induction r with
  | zero => intro a tries sleeps le; simp [retryLoop]
  | succ r ih =>
    intro a tries sleeps le
    cases dd with
    | none =>
      rw [retryLoop_succ_none]
      cases har : ar a with
      | some e =>
        dsimp only
        have := ih (a + 1) (tries ++ [cmd]) sleeps (some e)
        simp only [List.length_append, List.length_singleton] at this
        omega
      | none => simp
    | some d =>
      rw [retryLoop_succ_some]
      cases har : ar a with
      | some e =>
        dsimp only
        have := ih (a + 1) (tries ++ [cmd])
          (if a > 1 then sleeps ++ [(a, d)] else sleeps) (some e)
        simp only [List.length_append, List.length_singleton] at this
        omega
      | none => simp

/-- The retry loop never drops subprocesses already started. -/
theorem retryLoop_tries_ge (cmd : GoCmd) (dd : Option Duration)
    (ar : Nat → Option String) (M : Nat) :
    ∀ (r a : Nat) (tries : List GoCmd) (sleeps : List (Nat × Duration))
      (le : Option String),
      tries.length ≤ (retryLoop cmd dd ar M a r tries sleeps le).tries.length := by
  intro r
  induction r with
  | zero => intro a tries sleeps le; simp [retryLoop]
  | succ r ih =>
    intro a tries sleeps le
    cases dd with
    | none =>
      rw [retryLoop_succ_none]
      cases har : ar a with
      | some e =>
        dsimp only
        have := ih (a + 1) (tries ++ [cmd]) sleeps (some e)
        simp only [List.length_append, List.length_singleton] at this
        omega
      | none => simp
    | some d =>
      rw [retryLoop_succ_some]
      cases har : ar a with
      | some e =>
        dsimp only
        have := ih (a + 1) (tries ++ [cmd])
          (if a > 1 then sleeps ++ [(a, d)] else sleeps) (some e)
        simp only [List.length_append, List.length_singleton] at this
        omega
      | none => simp

/-- Every subprocess the retry loop starts is the fresh clone of the
original command: same path, arguments, working directory, environment. -/
theorem retryLoop_tries_mem (cmd : GoCmd) (dd : Option Duration)
    (ar : Nat → Option String) (M : Nat) :
    ∀ (r a : Nat) (tries : List GoCmd) (sleeps : List (Nat × Duration))
      (le : Option String) (c : GoCmd),
      c ∈ (retryLoop cmd dd ar M a r tries sleeps le).tries →
      c ∈ tries ∨ c = cmd := by
  intro r
  induction r with
  | zero =>
    intro a tries sleeps le c hc
    simp [retryLoop] at hc
    exact Or.inl hc
  | succ r ih =>
    intro a tries sleeps le c hc
    cases dd with
    | none =>
      rw [retryLoop_succ_none] at hc
      cases har : ar a with
      | some e =>
        rw [har] at hc
        rcases ih (a + 1) (tries ++ [cmd]) sleeps (some e) c hc with hmem | hceq
        · rcases List.mem_append.mp hmem with h | h
          · exact Or.inl h
          · simp at h
            exact Or.inr h
        · exact Or.inr hceq
      | none =>
        rw [har] at hc
        simp only [] at hc
        rcases List.mem_append.mp hc with h | h
        · exact Or.inl h
        · simp at h
          exact Or.inr h
    | some d =>
      rw [retryLoop_succ_some] at hc
      cases har : ar a with
      | some e =>
        rw [har] at hc
        rcases ih (a + 1) (tries ++ [cmd])
            (if a > 1 then sleeps ++ [(a, d)] else sleeps) (some e) c hc with
          hmem | hceq
        · rcases List.mem_append.mp hmem with h | h
          · exact Or.inl h
          · simp at h
            exact Or.inr h
        · exact Or.inr hceq
      | none =>
        rw [har] at hc
        simp only [] at hc
        rcases List.mem_append.mp hc with h | h
        · exact Or.inl h
        · simp at h
          exact Or.inr h

/-- With no parseable delay the retry loop never sleeps. -/
theorem retryLoop_sleeps_none (cmd : GoCmd) (ar : Nat → Option String)
    (M : Nat) :
    ∀ (r a : Nat) (tries : List GoCmd) (sleeps : List (Nat × Duration))
      (le : Option String),
      (retryLoop cmd none ar M a r tries sleeps le).sleeps = sleeps := by
  intro r
  induction r with
  | zero => intro a tries sleeps le; simp [retryLoop]
  | succ r ih =>
    intro a tries sleeps le
    rw [retryLoop_succ_none]
    cases har : ar a with
    | some e => exact ih (a + 1) (tries ++ [cmd]) sleeps (some e)
    | none => simp

/-- With a parsed delay, the retry loop entered at attempt `a ≥ 2`
sleeps exactly once before each attempt it starts. -/
theorem retryLoop_sleeps_some (cmd : GoCmd) (d : Duration)
    (ar : Nat → Option String) (M : Nat) :
    ∀ (r a : Nat) (tries : List GoCmd) (sleeps : List (Nat × Duration))
      (le : Option String), 2 ≤ a →
      (retryLoop cmd (some d) ar M a r tries sleeps le).sleeps =
        sleeps ++ (List.range' a
          ((retryLoop cmd (some d) ar M a r tries sleeps le).tries.length -
            tries.length)).map (fun n => (n, d)) := by
  intro r
  induction r with
  | zero => intro a tries sleeps le _; simp [retryLoop]
  | succ r ih =>
    intro a tries sleeps le ha
    have h1 : a > 1 := ha
    rw [retryLoop_succ_some]
    cases har : ar a with
    | some e =>
      rw [if_pos h1]
      have hge := retryLoop_tries_ge cmd (some d) ar M r (a + 1)
        (tries ++ [cmd]) (sleeps ++ [(a, d)]) (some e)
      rw [ih (a + 1) (tries ++ [cmd]) (sleeps ++ [(a, d)]) (some e)
        (by omega)]
      simp only [List.length_append, List.length_singleton] at hge ⊢
      have hdiff :
          (retryLoop cmd (some d) ar M (a + 1) r (tries ++ [cmd])
            (sleeps ++ [(a, d)]) (some e)).tries.length - tries.length =
          ((retryLoop cmd (some d) ar M (a + 1) r (tries ++ [cmd])
            (sleeps ++ [(a, d)]) (some e)).tries.length -
              (tries.length + 1)) + 1 := by omega
      rw [hdiff, List.range'_succ]
      simp
    | none =>
      rw [if_pos h1]
      simp only [List.length_append, List.length_singleton]
      have hone : tries.length + 1 - tries.length = 1 := by omega
      rw [hone, List.range'_succ]
      simp

/-- If every attempt in the window fails, the retry loop runs the whole
window and reports the window-count error wrapping the last failure. -/
theorem retryLoop_all_fail (cmd : GoCmd) (dd : Option Duration)
    (ar : Nat → Option String) (M : Nat) :
    ∀ (r a : Nat) (tries : List GoCmd) (sleeps : List (Nat × Duration))
      (le : Option String), 1 ≤ r →
      (∀ n, a ≤ n → n < a + r → (ar n).isSome = true) →
      ∃ e, ar (a + r - 1) = some e ∧
        (retryLoop cmd dd ar M a r tries sleeps le).result =
          some ("all " ++ toString M ++ " attempts failed, last error: " ++ e) ∧
        (retryLoop cmd dd ar M a r tries sleeps le).tries.length =
          tries.length + r := by
  intro r
  induction r with
  | zero => intro a tries sleeps le h; omega
  | succ r ih =>
    intro a tries sleeps le _ hall
    have ha : (ar a).isSome = true := hall a (Nat.le_refl a) (by omega)
    obtain ⟨e₀, he₀⟩ := Option.isSome_iff_exists.mp ha
    cases r with
    | zero =>
      refine ⟨e₀, by simpa using he₀, ?_⟩
      cases dd with
      | none =>
        rw [retryLoop_succ_none, he₀]
        simp [retryLoop]
      | some d =>
        rw [retryLoop_succ_some, he₀]
        by_cases h1 : a > 1 <;> simp [retryLoop, h1]
    | succ r₀ =>
      have hall₀ : ∀ n, a + 1 ≤ n → n < (a + 1) + (r₀ + 1) →
          (ar n).isSome = true := by
        intro n h₁ h₂
        exact hall n (by omega) (by omega)
      have harith : a + 1 + (r₀ + 1) - 1 = a + (r₀ + 1 + 1) - 1 := by omega
      cases dd with
      | none =>
        obtain ⟨e, he, hres, hlen⟩ := ih (a + 1) (tries ++ [cmd]) sleeps
          (some e₀) (by omega) hall₀
        refine ⟨e, by rw [← harith]; exact he, ?_, ?_⟩
        · rw [retryLoop_succ_none, he₀]
          exact hres
        · rw [retryLoop_succ_none, he₀, hlen]
          simp
          omega
      | some d =>
        obtain ⟨e, he, hres, hlen⟩ := ih (a + 1) (tries ++ [cmd])
          (if a > 1 then sleeps ++ [(a, d)] else sleeps)
          (some e₀) (by omega) hall₀
        refine ⟨e, by rw [← harith]; exact he, ?_, ?_⟩
        · rw [retryLoop_succ_some, he₀]
          exact hres
        · rw [retryLoop_succ_some, he₀, hlen]
          simp
          omega

/-- C6: with `retry.max_attempts > 1`, the process backend makes at most
`max_attempts` total tries, each a freshly constructed command with the
same path, arguments, environment and working directory as the original;
the parsed delay is slept exactly once before each retry (attempts 2, 3,
…) and never before the first attempt — and not at all when the delay is
absent or unparseable; and when every attempt fails, the returned error
wraps the error of the last attempt and states how many attempts were made. -/
theorem C6_retry_execution :
    ∀ (pd : String → Option Duration) (ar : Nat → Option String)
      (cmd : GoCmd) (policy : RetryPolicy),
      1 < policy.MaxAttempts →
      ((executeWithRetry pd ar cmd policy).tries.length ≤
          policy.MaxAttempts.toNat ∧
        (∀ c ∈ (executeWithRetry pd ar cmd policy).tries, c = cmd) ∧
        (∀ p ∈ (executeWithRetry pd ar cmd policy).sleeps, 2 ≤ p.1) ∧
        (∀ d, policy.Delay ≠ "" → pd policy.Delay = some d →
          (executeWithRetry pd ar cmd policy).sleeps =
            (List.range' 2
              ((executeWithRetry pd ar cmd policy).tries.length - 1)).map
              (fun n => (n, d))) ∧
        ((policy.Delay = "" ∨ pd policy.Delay = none) →
          (executeWithRetry pd ar cmd policy).sleeps = []) ∧
        ((∀ n, 1 ≤ n → n ≤ policy.MaxAttempts.toNat → (ar n).isSome = true) →
          ∃ e, ar policy.MaxAttempts.toNat = some e ∧
            (executeWithRetry pd ar cmd policy).result =
              some ("all " ++ toString policy.MaxAttempts.toNat ++
                " attempts failed, last error: " ++ e) ∧
            (executeWithRetry pd ar cmd policy).tries.length =
              policy.MaxAttempts.toNat)) := by
  intro pd ar cmd policy hM
  have hnotle : ¬ policy.MaxAttempts ≤ 0 := by omega
  have hM2 : 2 ≤ policy.MaxAttempts.toNat := by omega
  have hunfold : executeWithRetry pd ar cmd policy =
      retryLoop cmd (if policy.Delay ≠ "" then pd policy.Delay else none) ar
        policy.MaxAttempts.toNat 1 policy.MaxAttempts.toNat [] [] none := by
    unfold executeWithRetry
    rw [if_neg hnotle]
  obtain ⟨r, hr⟩ : ∃ r, policy.MaxAttempts.toNat = r + 1 :=
    ⟨policy.MaxAttempts.toNat - 1, by omega⟩
  refine ⟨?_, ?_, ?_, ?_, ?_, ?_⟩
  · rw [hunfold]
    simpa using retryLoop_tries_le cmd _ ar policy.MaxAttempts.toNat
      policy.MaxAttempts.toNat 1 [] [] none
  · intro c hc
    rw [hunfold] at hc
    rcases retryLoop_tries_mem cmd _ ar policy.MaxAttempts.toNat
        policy.MaxAttempts.toNat 1 [] [] none c hc with h | h
    · simp at h
    · exact h
  · intro p hp
    rw [hunfold] at hp
    cases hdd : (if policy.Delay ≠ "" then pd policy.Delay else none) with
    | none =>
      rw [hdd, retryLoop_sleeps_none] at hp
      simp at hp
    | some d =>
      rw [hdd, hr, retryLoop_succ_some] at hp
      cases har : ar 1 with
      | some e =>
        rw [har] at hp
        dsimp only at hp
        rw [if_neg (by omega : ¬ (1 > 1))] at hp
        rw [retryLoop_sleeps_some cmd d ar (r + 1) r (1 + 1) ([] ++ [cmd]) []
          (some e) (by omega)] at hp
        simp only [List.nil_append, List.mem_map, List.mem_range'] at hp
        obtain ⟨n, ⟨i, _, hni⟩, hpn⟩ := hp
        rw [← hpn]
        omega
      | none =>
        rw [har] at hp
        dsimp only at hp
        rw [if_neg (by omega)] at hp
        simp at hp
  · intro d hne hpd
    have hdd : (if policy.Delay ≠ "" then pd policy.Delay else none) =
        some d := by rw [if_pos hne, hpd]
    rw [hunfold, hdd, hr, retryLoop_succ_some]
    cases har : ar 1 with
    | some e =>
      dsimp only
      rw [if_neg (by omega : ¬ (1 > 1))]
      have hge := retryLoop_tries_ge cmd (some d) ar (r + 1)
        r (1 + 1) ([] ++ [cmd]) [] (some e)
      rw [retryLoop_sleeps_some cmd d ar (r + 1) r (1 + 1) ([] ++ [cmd]) []
        (some e) (by omega)]
      simp only [List.nil_append, List.length_singleton] at hge ⊢
    | none =>
      dsimp only
      simp
  · intro hcase
    have hdd : (if policy.Delay ≠ "" then pd policy.Delay else none) =
        none := by
      rcases hcase with h | h
      · rw [if_neg (by simpa using h)]
      · by_cases hne : policy.Delay ≠ ""
        · rw [if_pos hne, h]
        · rw [if_neg hne]
    rw [hunfold, hdd, retryLoop_sleeps_none]
  · intro hall
    rw [hunfold]
    obtain ⟨e, he, hres, hlen⟩ := retryLoop_all_fail cmd
      (if policy.Delay ≠ "" then pd policy.Delay else none) ar
      policy.MaxAttempts.toNat policy.MaxAttempts.toNat 1 [] [] none
      (by omega)
      (fun n h1 h2 => hall n h1 (by omega))
    refine ⟨e, ?_, hres, by simpa using hlen⟩
    have harith : 1 + policy.MaxAttempts.toNat - 1 =
        policy.MaxAttempts.toNat := by omega
    rw [← harith]
    exact he

/-- C6 witness: a two-attempt policy with parseable delay over an
always-failing command makes exactly two tries of the same command,
sleeps once (before attempt 2), and reports the two-attempt error
wrapping the last failure. -/
theorem C6_retry_execution_witness :
    (executeWithRetry (fun _ => some 5) (fun _ => some "boom") c6Cmd
        c6Policy).tries.length ≤ (2 : Int).toNat ∧
    (executeWithRetry (fun _ => some 5) (fun _ => some "boom") c6Cmd
        c6Policy).sleeps =
      (List.range' 2
        ((executeWithRetry (fun _ => some 5) (fun _ => some "boom") c6Cmd
          c6Policy).tries.length - 1)).map (fun n => (n, 5)) ∧
    ∃ e, (fun _ => some "boom") (2 : Int).toNat = some e ∧
      (executeWithRetry (fun _ => some 5) (fun _ => some "boom") c6Cmd
          c6Policy).result =
        some ("all " ++ toString (2 : Int).toNat ++
          " attempts failed, last error: " ++ e) :=
  have h := C6_retry_execution (fun _ => some 5) (fun _ => some "boom")
    c6Cmd c6Policy (by norm_num [c6Policy])
  ⟨h.1,
   h.2.2.2.1 5 (by simp [c6Policy]) rfl,
   (h.2.2.2.2.2 (fun n _ _ => rfl)).imp
     (fun e he => ⟨he.1, he.2.1⟩)⟩

/-- Helper: a successful association-list lookup exhibits a member. -/
theorem lookup_mem {jobs : List (String × Job)} {a : String} {b : Job} :
    jobs.lookup a = some b → (a, b) ∈ jobs := by
  induction jobs with
  | nil => simp [List.lookup]
  | cons p rest ih =>
    intro h
    rw [List.lookup] at h
    cases heq : a == p.1 with
    | true =>
      rw [heq] at h
      have ha : a = p.1 := by simpa using heq
      have hb : p.2 = b := by simpa using h
      have hab : (a, b) = p := by rw [ha, ← hb]
      rw [hab]
      exact List.mem_cons_self p rest
    | false =>
      rw [heq] at h
      exact List.mem_cons_of_mem p (ih h)

/-- Helper: a successful lookup means the key occurs among the keys. -/
theorem lookup_mem_fst {jobs : List (String × Job)} {a : String} {b : Job}
    (h : jobs.lookup a = some b) : a ∈ jobs.map Prod.fst :=
  List.mem_map.mpr ⟨(a, b), lookup_mem h, rfl⟩

/-- Walking one new existing job strictly shrinks the key measure. -/
theorem keysLeft_lt (jobs : List (String × Job)) (visited : List String)
    (v : String) (hv : v ∈ jobs.map Prod.fst) (hnotin : v ∉ visited) :
    keysLeft jobs (visited ++ [v]) < keysLeft jobs visited := by
  unfold keysLeft
  have hsub : List.Sublist
      (((jobs.map Prod.fst).dedup).filter
        (fun k => decide (k ∉ visited ++ [v])))
      (((jobs.map Prod.fst).dedup).filter
        (fun k => decide (k ∉ visited))) := by
    apply List.monotone_filter_right
    intro a ha
    simp only [decide_eq_true_eq] at ha ⊢
    intro hmem
    exact ha (List.mem_append.mpr (Or.inl hmem))
  have hvd : v ∈ (jobs.map Prod.fst).dedup := List.mem_dedup.mpr hv
  have hvin : v ∈ ((jobs.map Prod.fst).dedup).filter
      (fun k => decide (k ∉ visited)) :=
    List.mem_filter.mpr ⟨hvd, by simpa using hnotin⟩
  have hvout : v ∉ ((jobs.map Prod.fst).dedup).filter
      (fun k => decide (k ∉ visited ++ [v])) := by
    intro hc
    have := (List.mem_filter.mp hc).2
    simp at this
  refine Nat.lt_of_le_of_ne (hsub.length_le) ?_
  intro heq
  rw [hsub.eq_of_length heq] at hvout
  exact hvout hvin

/-- Completeness of the depth-first search: whenever the walk closes
somewhere below `v`, `checkCircularDependencies` (with fuel above the
key measure) reports an error. -/
theorem checkCircular_ne_none_of_closes (jobs : List (String × Job)) :
    ∀ {visited : List String} {v : String}, Closes jobs visited v →
    ∀ (jv : Job), jobs.lookup v = some jv →
    ∀ (fuel : Nat), keysLeft jobs visited < fuel →
    checkCircularDependencies jobs fuel v jv visited ≠ none := by
  intro visited v hcl
  induction hcl with
  | base visited v hv =>
    intro jv _ fuel hfuel
    cases fuel with
    | zero => omega
    | succ f => simp [checkCircularDependencies, hv]
  | step visited v w he hc ih =>
    intro jv hjv fuel hfuel
    cases fuel with
    | zero => omega
    | succ f =>
      by_cases hvin : v ∈ visited
      · simp [checkCircularDependencies, hvin]
      · obtain ⟨ja, hja, hwmem, hwsome⟩ := he
        have hjaeq : ja = jv := by
          rw [hja] at hjv
          injection hjv
        obtain ⟨jw, hjw⟩ := Option.isSome_iff_exists.mp hwsome
        have hlt : keysLeft jobs (visited ++ [v]) < f := by
          have := keysLeft_lt jobs visited v (lookup_mem_fst hjv) hvin
          omega
        have hne := ih jw hjw f hlt
        simp only [checkCircularDependencies, if_neg hvin]
        apply findSome?_ne_none_of_mem (a := w)
        · rw [← hjaeq]
          exact hwmem
        · simp only [hjw]
          exact hne

/-- A needs-walk whose endpoint lies on the extended path yields a
DFS closure. -/
theorem closes_of_walk (jobs : List (String × Job)) :
    ∀ (w : List String) (v : String) (visited : List String),
      List.Chain (NeedsEdge jobs) v w →
      (∀ u, w.getLast? = some u → u ∈ visited ++ v :: w.dropLast) →
      w ≠ [] →
      Closes jobs visited v := by
  intro w
  induction w with
  | nil => intro v visited _ _ h; exact absurd rfl h
  | cons x xs ih =>
    intro v visited hchain hlast _
    obtain ⟨hvx, hxs⟩ := List.chain_cons.mp hchain
    cases xs with
    | nil =>
      have hx : x ∈ visited ++ [v] := by
        have := hlast x (by simp)
        simpa using this
      exact Closes.step visited v x hvx (Closes.base (visited ++ [v]) x hx)
    | cons y ys =>
      refine Closes.step visited v x hvx ?_
      refine ih x (visited ++ [v]) hxs ?_ (by simp)
      intro u hu
      have := hlast u (by simpa using hu)
      simp only [List.dropLast_cons₂, List.cons_append, List.append_assoc] at this ⊢
      simpa using this

/-- A `needs` cycle yields a DFS closure from some existing job. -/
theorem closes_of_cycle {jobs : List (String × Job)} (h : NeedsCycle jobs) :
    ∃ v jv, jobs.lookup v = some jv ∧ Closes jobs [] v := by
  obtain ⟨v, p, hchain⟩ := h
  have hlookup : ∃ jv, jobs.lookup v = some jv := by
    cases p with
    | nil =>
      have hv : NeedsEdge jobs v v := by simpa using hchain
      obtain ⟨ja, hja, _, _⟩ := hv
      exact ⟨ja, hja⟩
    | cons x xs =>
      have hch : List.Chain (NeedsEdge jobs) v (x :: (xs ++ [v])) := by
        simpa using hchain
      obtain ⟨hv, _⟩ := List.chain_cons.mp hch
      obtain ⟨ja, hja, _, _⟩ := hv
      exact ⟨ja, hja⟩
  obtain ⟨jv, hjv⟩ := hlookup
  refine ⟨v, jv, hjv, ?_⟩
  refine closes_of_walk jobs (p ++ [v]) v [] hchain ?_ (by simp)
  intro u hu
  rw [List.getLast?_concat] at hu
  cases hu
  simp

/-- Soundness of the reported message: any error the search returns is
the walked chain joined with " -> ", closing at a job already on it, and
consecutive chain entries are real `needs` edges. -/
theorem checkCircular_some_form (jobs : List (String × Job)) :
    ∀ (fuel : Nat) (v : String) (jv : Job) (visited : List String)
      (err : String),
      jobs.lookup v = some jv →
      List.Chain' (NeedsEdge jobs) (visited ++ [v]) →
      checkCircularDependencies jobs fuel v jv visited = some err →
      ∃ q c, c ∈ q ∧ err = mkCycleMsg q c ∧
        List.Chain' (NeedsEdge jobs) (q ++ [c]) := by
  intro fuel
  induction fuel with
  | zero => intro v jv visited err _ _ h; simp [checkCircularDependencies] at h
  | succ f ih =>
    intro v jv visited err hv hchain hsome
    by_cases hvin : v ∈ visited
    · simp only [checkCircularDependencies, if_pos hvin, Option.some.injEq]
        at hsome
      exact ⟨visited, v, hvin, hsome.symm, hchain⟩
    · simp only [checkCircularDependencies, if_neg hvin] at hsome
      obtain ⟨need, hneedmem, hfneed⟩ := exists_of_findSome?_eq_some hsome
      cases hlk : jobs.lookup need with
      | none => rw [hlk] at hfneed; simp at hfneed
      | some dep =>
        rw [hlk] at hfneed
        dsimp only at hfneed
        have hedge : NeedsEdge jobs v need :=
          ⟨jv, hv, hneedmem, by rw [hlk]; rfl⟩
        have hchain₂ : List.Chain' (NeedsEdge jobs)
            ((visited ++ [v]) ++ [need]) := by
          rw [List.chain'_append]
          refine ⟨hchain, List.chain'_singleton need, ?_⟩
          intro x hx y hy
          rw [List.getLast?_concat] at hx
          simp only [List.head?_cons, Option.some.injEq] at hy
          cases hx
          cases hy
          exact hedge
        exact ih need dep (visited ++ [v]) err hlk hchain₂ hfneed

/-- C7: for every pipeline whose `needs` relation (restricted to
existing jobs) contains a cycle, `validatePipeline` returns an error
that spells the full walked chain in traversal order, as job names
joined by " -> ", ending at the job where the path closes (which already
occurs earlier in the chain), with every consecutive pair a real
`needs` dependency. -/
theorem C7_cycle_detection :
    ∀ (pipeline : Pipeline) (strict : Bool), NeedsCycle pipeline.Jobs →
      ∃ err ∈ validatePipeline pipeline strict, ∃ q c, c ∈ q ∧
        err = mkCycleMsg q c ∧
        List.Chain' (NeedsEdge pipeline.Jobs) (q ++ [c]) := by
  intro pipeline strict hcyc
  obtain ⟨v, jv, hjv, hcloses⟩ := closes_of_cycle hcyc
  have hfuel : keysLeft pipeline.Jobs [] < pipeline.Jobs.length + 1 := by
    unfold keysLeft
    have h1 : (((pipeline.Jobs.map Prod.fst).dedup).filter
        (fun k => decide (k ∉ ([] : List String)))).length ≤
        ((pipeline.Jobs.map Prod.fst).dedup).length :=
      (List.filter_sublist _).length_le
    have h2 : ((pipeline.Jobs.map Prod.fst).dedup).length ≤
        (pipeline.Jobs.map Prod.fst).length :=
      (List.dedup_sublist _).length_le
    have h3 : (pipeline.Jobs.map Prod.fst).length = pipeline.Jobs.length :=
      List.length_map _ _
    omega
  have hne := checkCircular_ne_none_of_closes pipeline.Jobs hcloses jv hjv
    (pipeline.Jobs.length + 1) hfuel
  obtain ⟨err, herr⟩ := Option.ne_none_iff_exists.mp hne
  have hform := checkCircular_some_form pipeline.Jobs
    (pipeline.Jobs.length + 1) v jv [] err hjv
    (by simp) herr.symm
  refine ⟨err, ?_, hform⟩
  unfold validatePipeline
  rw [List.mem_append]
  right
  rw [List.mem_flatMap]
  refine ⟨(v, jv), lookup_mem hjv, ?_⟩
  unfold validateJob
  rw [← herr]
  simp

/-- C7 witness: the two-job cycle `a -> b -> a` is detected by
validation and the reported chain closes on a repeated job. -/
theorem C7_cycle_detection_witness :
    NeedsCycle c7Pipeline.Jobs ∧
    ∃ err ∈ validatePipeline c7Pipeline false, ∃ q c, c ∈ q ∧
      err = mkCycleMsg q c ∧
      List.Chain' (NeedsEdge c7Pipeline.Jobs) (q ++ [c]) :=
  have hedgeab : NeedsEdge c7Pipeline.Jobs "a" "b" :=
    ⟨{ Name := "a", Needs := ["b"],
       Steps := [{ Name := "s", Run := "true" }] }, rfl, by simp, by rfl⟩
  have hedgeba : NeedsEdge c7Pipeline.Jobs "b" "a" :=
    ⟨{ Name := "b", Needs := ["a"],
       Steps := [{ Name := "s", Run := "true" }] }, rfl, by simp, by rfl⟩
  have hcyc : NeedsCycle c7Pipeline.Jobs :=
    ⟨"a", ["b"], List.Chain.cons hedgeab (List.Chain.cons hedgeba
      List.Chain.nil)⟩
  ⟨hcyc, C7_cycle_detection c7Pipeline false hcyc⟩

end GitCI
